import Mathlib

/-!
Verification of the post-OCR normalization and record-reconciliation engine
of the receipt-reader repository, as a shallow embedding in Lean 4.

The embedded code lives in `src/logic/gemini_client.py` and
`src/logic/models.py`.  Python strings are modelled as `List Char`
(Python string indices and Lean list indices coincide, both counting
code points), Python `int` as `Int`, and Python regular-expression
scans as explicit left-to-right matchers with the same backtracking
behaviour as the concrete patterns used by the source.
-/

namespace ReceiptReader

/-- Python strings, as lists of code points. -/
abbrev Str := List Char

/-! ### Character classes used by `gemini_client.py` -/

/-- Models `unicodedata.normalize("NFKC", ·)` character-wise, restricted to
the code points these code paths see: full-width ASCII forms U+FF01..U+FF5E
fold to ASCII, the ideographic space U+3000 folds to a space; NFKC is the
identity on every other character appearing in this development. -/
def nfkcChar (c : Char) : Char :=
  if 0xFF01 ≤ c.toNat ∧ c.toNat ≤ 0xFF5E then Char.ofNat (c.toNat - 0xFEE0)
  else if c.toNat = 0x3000 then ' '
  else c

/-- Embeds `_zen_to_han` (gemini_client.py line 151): NFKC normalization. -/
def zenToHan (s : Str) : Str := s.map nfkcChar

/-- The dash/hyphen/long-vowel characters removed by
`re.sub(r"[\-−ー–—‐‑‒―⁃₋﹣－]", "", s)` (gemini_client.py line 175). -/
def isDashChar (c : Char) : Bool :=
  c = '-' ∨ c.toNat = 0x2212 ∨ c.toNat = 0x30FC ∨ c.toNat = 0x2013 ∨
  c.toNat = 0x2014 ∨ c.toNat = 0x2010 ∨ c.toNat = 0x2011 ∨ c.toNat = 0x2012 ∨
  c.toNat = 0x2015 ∨ c.toNat = 0x2043 ∨ c.toNat = 0x208B ∨ c.toNat = 0xFE63 ∨
  c.toNat = 0xFF0D

/-- Models Python regex `\s` together with the explicit `　` of
`re.sub(r"[\s　]", "", s)` (line 177), restricted to the common
whitespace code points. -/
def isPySpace (c : Char) : Bool :=
  c = ' ' ∨ c = '\t' ∨ c = '\n' ∨ c = '\r' ∨ c.toNat = 0x0B ∨ c.toNat = 0x0C ∨
  c.toNat = 0xA0 ∨ c.toNat = 0x3000

/-- Full-width digits ０..９ (the `０-９` ranges in the source patterns). -/
def isFwDigit (c : Char) : Bool := 0xFF10 ≤ c.toNat ∧ c.toNat ≤ 0xFF19

/-- Models Python `str.lower()`; faithful on the ASCII range, which is the
only range this code lower-cases after NFKC folding. -/
def lowerStr (s : Str) : Str := s.map Char.toLower

/-- Whether `pre` is a prefix of `l` (Boolean, by direct recursion). -/
def isPrefHere : Str → Str → Bool
  | [], _ => true
  | _ :: _, [] => false
  | a :: as, b :: bs => a = b && isPrefHere as bs

/-- Python substring test `needle in hay` for strings. -/
def containsSub (hay needle : Str) : Bool :=
  match hay with
  | [] => needle.isEmpty
  | _ :: rest => isPrefHere needle hay || containsSub rest needle

/-- Python `str.strip()` restricted to the modelled whitespace class. -/
def stripPy (s : Str) : Str :=
  ((s.dropWhile isPySpace).reverse.dropWhile isPySpace).reverse

/-! ### Invoice (T-number) normalization — `_normalize_invoice_candidate` -/

/-- Steps 1-3 of `_normalize_invoice_candidate` (lines 173-177): NFKC fold,
then removal of every dash variant, then removal of all whitespace.
The trailing `.strip()` of line 177 is a no-op after the whitespace
removal and is therefore absorbed here. -/
def invoiceCleaned (raw : Str) : Str :=
  ((zenToHan raw).filter (fun c => !isDashChar c)).filter (fun c => !isPySpace c)

/-- Embeds `_normalize_invoice_candidate` (gemini_client.py lines 156-197).
Returns the normalized T-number (empty when rejected) and the
low-confidence flag. -/
def normalizeInvoiceCandidate (raw : Str) : Str × Bool :=
  if raw.isEmpty then ([], false)
  else
    match invoiceCleaned raw with
    | [] => ([], false)
    | c :: rest =>
      if c = 'T' then
        let digits := rest.filter Char.isDigit
        if digits.length = 13 then ('T' :: digits, false)
        else if digits.length = 12 then ('T' :: '0' :: digits, true)
        else if digits.length = 14 && digits.head? = some '0' then
          ('T' :: digits.drop 1, true)
        else ([], false)
      else ([], false)

/-! ### Invoice extraction — `_extract_invoice_no_from_text` -/

/-- Member of the character class `[0-9０-９\-ー－−–—‐\s]` of
`_T_NUMBER_PATTERN` (gemini_client.py line 148). -/
def isTBodyChar (c : Char) : Bool :=
  c.isDigit ∨ isFwDigit c ∨ c = '-' ∨ c.toNat = 0x30FC ∨ c.toNat = 0xFF0D ∨
  c.toNat = 0x2212 ∨ c.toNat = 0x2013 ∨ c.toNat = 0x2014 ∨ c.toNat = 0x2010 ∨
  isPySpace c

/-- Recursion core of `findTCandidates`; `fuel` only bounds the recursion
depth (one unit per consumed character) so that the kernel can evaluate
the scan. -/
def findTCandidatesAux : Nat → Str → List Str
  | 0, _ => []
  | _, [] => []
  | fuel + 1, c :: rest =>
    if c = 'T' ∨ c.toNat = 0xFF34 then
      let run := rest.takeWhile isTBodyChar
      if 10 ≤ run.length then
        (c :: run) :: findTCandidatesAux fuel (rest.dropWhile isTBodyChar)
      else findTCandidatesAux fuel rest
    else findTCandidatesAux fuel rest

/-- Embeds `re.findall(_T_NUMBER_PATTERN, text)`: pattern
`[TＴ][0-9０-９\-ー－−–—‐\s]{10,}`, scanned left to right,
non-overlapping, the greedy `{10,}` taking the maximal run. -/
def findTCandidates (s : Str) : List Str := findTCandidatesAux s.length s

/-- First character test of `re.match(r"^[TＴt]", token)` (line 257). -/
def isTHeadTok (t : Str) : Bool :=
  match t with
  | c :: _ => c = 'T' ∨ c.toNat = 0xFF34 ∨ c = 't'
  | [] => false

/-- Whether a character belongs to a `[TＴt]` token of the tokenizer. -/
def isTTokChar (c : Char) : Bool := c = 'T' ∨ c.toNat = 0xFF34 ∨ c = 't'

/-- Recursion core of `tokenizeWindow` (fuel bounds the depth). -/
def tokenizeWindowAux : Nat → Str → List Str
  | 0, _ => []
  | _, [] => []
  | fuel + 1, c :: rest =>
    if isTTokChar c then [c] :: tokenizeWindowAux fuel rest
    else if c.isDigit ∨ isFwDigit c then
      (c :: rest.takeWhile (fun d => d.isDigit ∨ isFwDigit d)) ::
        tokenizeWindowAux fuel (rest.dropWhile (fun d => d.isDigit ∨ isFwDigit d))
    else tokenizeWindowAux fuel rest

/-- Embeds `re.findall(r"[TＴt]|[0-9０-９]+", window)` (line 254):
single-character T tokens and maximal digit-run tokens, everything
else skipped. -/
def tokenizeWindow (s : Str) : List Str := tokenizeWindowAux s.length s

/-- Number of ASCII digits in a string:
`len(re.sub(r"[^0-9]", "", s))` (lines 263, 267). -/
def digitCount (s : Str) : Nat := (s.filter Char.isDigit).length

/-- Embeds the inner loop of the token-merge fallback (lines 265-278):
tokens of `rest` are appended cumulatively to `combined` (with running
digit count `dc`); as soon as the count lies in [12,14] normalization is
tried, a hit being returned with the literal low-confidence flag `true`
of line 274; a count above 14 aborts.  `fuel` is the remaining number of
tokens this `T`-token may absorb (7, from `range(i+1, i+8)`). -/
def tryCombine (combined : Str) (dc : Nat) : List Str → Nat → Option (Str × Bool)
  | _, 0 => none
  | [], _ => none
  | t :: ts, fuel + 1 =>
    let combined := combined ++ t
    let dc := dc + digitCount t
    if 12 ≤ dc ∧ dc ≤ 14 then
      let norm := (normalizeInvoiceCandidate combined).1
      if norm.isEmpty then tryCombine combined dc ts fuel
      else some (norm, true)
    else if 14 < dc then none
    else tryCombine combined dc ts fuel

/-- Embeds the outer loop of the token-merge fallback (lines 255-278):
each token whose first character matches `[TＴt]` seeds a cumulative
concatenation of at most the 7 following tokens. -/
def blockMergeSearch : List Str → Option (Str × Bool)
  | [] => none
  | t :: ts =>
    if isTHeadTok t then
      match tryCombine t (digitCount t) ts 7 with
      | some r => some r
      | none => blockMergeSearch ts
    else blockMergeSearch ts

/-- First candidate of a list that normalizes successfully, with its
confidence flag — the inner `for cand in candidates` loops of lines
243-249 and 284-288. -/
def firstNorm : List Str → Option (Str × Bool)
  | [] => none
  | c :: cs =>
    let (n, low) := normalizeInvoiceCandidate c
    if n.isEmpty then firstNorm cs else some (n, low)

/-- Recursion core of `scanKw` (fuel bounds the depth). -/
def scanKwAux (kw : Str) : Nat → Str → Nat → List Nat
  | 0, _, _ => []
  | _, [], _ => []
  | fuel + 1, c :: rest, pos =>
    if isPrefHere kw (c :: rest) then
      pos :: scanKwAux kw fuel ((c :: rest).drop (max kw.length 1))
        (pos + max kw.length 1)
    else scanKwAux kw fuel rest (pos + 1)

/-- Start positions of non-overlapping occurrences of `kw` in the text:
`re.finditer(re.escape(kw), text)` (lines 234, 334). -/
def scanKw (kw : Str) (text : Str) (pos : Nat) : List Nat :=
  scanKwAux kw text.length text pos

/-- The list `_INVOICE_LABEL_KEYWORDS` (gemini_client.py line 145). -/
def invoiceLabelKeywords : List Str :=
  ["登録番号".toList, "適格請求書発行事業者".toList, "適格請求書".toList,
   "インボイス".toList]

/-- Embeds the label-window construction of lines 232-238: for every
occurrence of every keyword, the slice
`ocr_text[max(0, start-60) : min(len, end+60)]`, in keyword order. -/
def labelWindows (text : Str) : List Str :=
  (invoiceLabelKeywords.map (fun kw =>
    (scanKw kw text 0).map (fun s =>
      let s0 := s - 60
      let e0 := min text.length (s + kw.length + 60)
      (text.drop s0).take (e0 - s0)))).flatten

/-- Per-window search of lines 243-278: first the loose-pattern
candidates, then the token-merge fallback. -/
def searchWindow (w : Str) : Option (Str × Bool) :=
  match firstNorm (findTCandidates w) with
  | some r => some r
  | none => blockMergeSearch (tokenizeWindow w)

/-- Embeds `_extract_invoice_no_from_text` (gemini_client.py lines
200-291), dropping only the human-readable debug string of the source's
3-tuple: (1) the AI-supplied hint, (2) the label-proximity windows,
(3) the whole-text search whose hits are always low-confidence. -/
def extractInvoiceNoFromText (ocrText aiRaw : Str) : Str × Bool :=
  let aiTry : Option (Str × Bool) :=
    if aiRaw.isEmpty then none
    else
      let (n, low) := normalizeInvoiceCandidate aiRaw
      if n.isEmpty then none else some (n, low)
  match aiTry with
  | some r => r
  | none =>
    if ocrText.isEmpty then ([], false)
    else
      match (labelWindows ocrText).findSome? searchWindow with
      | some r => r
      | none =>
        match firstNorm (findTCandidates ocrText) with
        | some (n, _) => (n, true)
        | none => ([], false)

/-! ### OCR gateway — retry and backend fallback

`_call_gemini_impl` and `_call_openai_impl` are both decorated with
`RETRY_DECORATOR = retry(stop=stop_after_attempt(3),
wait=wait_exponential(multiplier=2, min=2, max=16),
retry=retry_if_exception(_is_retryable_error), reraise=True)`
(gemini_client.py lines 84-89, 464, 485).  A backend is modelled as a
function from the attempt number (1-based) to an `Except` outcome; the
tenacity loop is the explicit recursion below, which also reports the
number of attempts consumed and the backoff delays (in seconds) slept
between them. -/

/-- Outcome of one backend invocation: a successful response text or a
raised exception, rendered by its message string. -/
inductive BackendResult where
  | ok (text : Str)
  | error (msg : Str)
deriving DecidableEq

/-- Embeds `_is_retryable_error` (gemini_client.py lines 72-79). -/
def isRetryableError (e : Str) : Bool :=
  let t := lowerStr e
  containsSub t "429".toList ∨ containsSub t "quota".toList ∨
  containsSub t "rate limit".toList ∨ containsSub t "resource exhausted".toList

/-- The tenacity `wait_exponential(multiplier=2, min=2, max=16)` delay
slept after the `attempt`-th failed attempt:
`clamp(multiplier * 2^(attempt-1), min, max)`. -/
def waitExp (attempt : Nat) : Nat := min 16 (max 2 (2 * 2 ^ (attempt - 1)))

/-- The tenacity loop from attempt number `attempt` with `budget` retries
still allowed: returns the outcome (`reraise=True` re-raises the last
error), the number of attempts consumed, and the delays slept. -/
def retryFrom (b : Nat → BackendResult) (attempt : Nat) :
    Nat → BackendResult × Nat × List Nat
  | 0 => (b attempt, 1, [])
  | budget + 1 =>
    match b attempt with
    | .ok v => (.ok v, 1, [])
    | .error e =>
      if isRetryableError e then
        let (r, k, ds) := retryFrom b (attempt + 1) budget
        (r, k + 1, waitExp attempt :: ds)
      else (.error e, 1, [])

/-- A `RETRY_DECORATOR`-wrapped call: `stop_after_attempt(3)` allows at
most 3 attempts in total. -/
def retryCall (b : Nat → BackendResult) : BackendResult × Nat × List Nat :=
  retryFrom b 1 2

/-- Configuration of `_analyze_single_image`'s backend selection (lines
544-568): key presence and the two backends. -/
structure Gateway where
  geminiKey : Bool
  openaiKey : Bool
  gemini : Nat → BackendResult
  openai : Nat → BackendResult

/-- Observable outcome of the backend-selection logic: the raw response
text (`none` when both backends are unavailable or fail) and how many
attempts each backend consumed (0 = never invoked). -/
structure GatewayOutcome where
  text : Option Str
  primaryAttempts : Nat
  secondaryAttempts : Nat
deriving DecidableEq

/-- The OpenAI fallback branch of `_analyze_single_image` (lines 556-568),
entered whenever the Gemini path produced no text. -/
def secondaryCall (g : Gateway) (pk : Nat) : GatewayOutcome :=
  if g.openaiKey then
    match retryCall g.openai with
    | (.ok t, k2, _) => ⟨some t, pk, k2⟩
    | (.error _, k2, _) => ⟨none, pk, k2⟩
  else ⟨none, pk, 0⟩

/-- Embeds the backend selection of `_analyze_single_image` (lines
544-568): try Gemini (with retry) when its key exists; on any failure
fall back to OpenAI (itself wrapped in the same `RETRY_DECORATOR`). -/
def gatewayCall (g : Gateway) : GatewayOutcome :=
  if g.geminiKey then
    match retryCall g.gemini with
    | (.ok t, k, _) => ⟨some t, k, 0⟩
    | (.error _, k, _) => secondaryCall g k
  else secondaryCall g 0

/-! ### Date extraction — `_extract_best_date` -/

/-- Embeds `CURRENT_YEAR = datetime.now().year` (gemini_client.py line 32; the
source comment pins it to 2026, the year of this verification). -/
def CURRENT_YEAR : Nat := 2026

/-- The list `_DATE_LABEL_KEYWORDS` (gemini_client.py line 299). -/
def dateLabelKeywords : List Str :=
  ["日付".toList, "利用日".toList, "乗車日".toList, "発行日".toList,
   "領収日".toList, "年月日".toList]

/-- Character class `[/\-]` of the slash/dash date patterns. -/
def isDateSep (c : Char) : Bool := c = '/' ∨ c = '-'

/-- Models Python regex `\d` (Unicode decimal digits) restricted to the
ASCII and full-width ranges, the two families this pipeline can meet. -/
def isPyDigit (c : Char) : Bool := c.isDigit ∨ isFwDigit c

/-- Numeric value of an ASCII or full-width digit (Python `int()` accepts
both). -/
def dVal (c : Char) : Nat :=
  if isFwDigit c then c.toNat - 0xFF10 else c.toNat - '0'.toNat

/-- Matches `(\d{1,2})` at the head with nothing required after it:
greedy, two digits when available.  Returns (value, length). -/
def matchD12 : Str → Option (Nat × Nat)
  | a :: b :: _ =>
    if isPyDigit a then
      if isPyDigit b then some (10 * dVal a + dVal b, 2) else some (dVal a, 1)
    else none
  | [a] => if isPyDigit a then some (dVal a, 1) else none
  | [] => none

/-- Matches `(\d{1,2})` immediately followed by the literal `lit`
(which is consumed), with regex backtracking: the two-digit reading is
preferred, the one-digit reading tried when `lit` does not follow.
Returns (value, length including `lit`). -/
def matchD12Lit (lit : Char) (l : Str) : Option (Nat × Nat) :=
  match l with
  | a :: b :: c :: _ =>
    if isPyDigit a ∧ isPyDigit b ∧ c = lit then some (10 * dVal a + dVal b, 3)
    else if isPyDigit a ∧ b = lit then some (dVal a, 2)
    else none
  | [a, b] => if isPyDigit a ∧ b = lit then some (dVal a, 2) else none
  | _ => none

/-- Matches `(\d{1,2})[/\-](\d{1,2})` at the head, with the same
backtracking the regex engine performs on the first group.
Returns (month, day, length). -/
def matchMDSlash (l : Str) : Option (Nat × Nat × Nat) :=
  let try2 : Option (Nat × Nat × Nat) :=
    match l with
    | a :: b :: sep :: rest =>
      if isPyDigit a ∧ isPyDigit b ∧ isDateSep sep then
        match matchD12 rest with
        | some (d, dl) => some (10 * dVal a + dVal b, d, 3 + dl)
        | none => none
      else none
    | _ => none
  match try2 with
  | some r => some r
  | none =>
    match l with
    | a :: sep :: rest =>
      if isPyDigit a ∧ isDateSep sep then
        match matchD12 rest with
        | some (d, dl) => some (dVal a, d, 2 + dl)
        | none => none
      else none
    | _ => none

/-- Matches `(\d{1,2})月(\d{1,2})日` at the head (backtracking on both
groups).  Returns (month, day, length). -/
def matchMDKanji (l : Str) : Option (Nat × Nat × Nat) :=
  match matchD12Lit '月' l with
  | some (m, ml) =>
    match matchD12Lit '日' (l.drop ml) with
    | some (d, dl) => some (m, d, ml + dl)
    | none =>
      -- the regex cannot backtrack into a shorter month reading here:
      -- `月` can follow only one digit split, so failure of the day part
      -- after a successful `月` match is final for this start position
      none
  | none => none

/-- Matches pattern 1, `(\d{4})[/\-](\d{1,2})[/\-](\d{1,2})`, at the head.
Returns (year, month, day, length). -/
def matchSlashAt (l : Str) : Option (Nat × Nat × Nat × Nat) :=
  match l with
  | a :: b :: c :: d :: sep :: rest =>
    if isPyDigit a ∧ isPyDigit b ∧ isPyDigit c ∧ isPyDigit d ∧ isDateSep sep then
      match matchMDSlash rest with
      | some (m, dd, len2) =>
        some (1000 * dVal a + 100 * dVal b + 10 * dVal c + dVal d, m, dd, 5 + len2)
      | none => none
    else none
  | _ => none

/-- Matches pattern 2, `(\d{4})年(\d{1,2})月(\d{1,2})日`, at the head. -/
def matchKanjiAt (l : Str) : Option (Nat × Nat × Nat × Nat) :=
  match l with
  | a :: b :: c :: d :: sep :: rest =>
    if isPyDigit a ∧ isPyDigit b ∧ isPyDigit c ∧ isPyDigit d ∧ sep = '年' then
      match matchMDKanji rest with
      | some (m, dd, len2) =>
        some (1000 * dVal a + 100 * dVal b + 10 * dVal c + dVal d, m, dd, 5 + len2)
      | none => none
    else none
  | _ => none

/-- Shared prefix `令和\s*(\d{1,2})年` of patterns 3 and 4: returns the
era year and the consumed length. -/
def matchReiwaPre (l : Str) : Option (Nat × Nat) :=
  match l with
  | r :: w :: rest =>
    if r = '令' ∧ w = '和' then
      let sp := rest.takeWhile isPySpace
      match matchD12Lit '年' (rest.drop sp.length) with
      | some (ry, yl) => some (ry, 2 + sp.length + yl)
      | none => none
    else none
  | _ => none

/-- Matches pattern 3, `令和\s*(\d{1,2})年(\d{1,2})月(\d{1,2})日`; the era
year is converted via `2018 + reiwa_year` (line 344). -/
def matchReiwaKanjiAt (l : Str) : Option (Nat × Nat × Nat × Nat) :=
  match matchReiwaPre l with
  | some (ry, pl) =>
    match matchMDKanji (l.drop pl) with
    | some (m, dd, len2) => some (2018 + ry, m, dd, pl + len2)
    | none => none
  | none => none

/-- Matches pattern 4, `令和\s*(\d{1,2})年[/\-](\d{1,2})[/\-](\d{1,2})`. -/
def matchReiwaSlashAt (l : Str) : Option (Nat × Nat × Nat × Nat) :=
  match matchReiwaPre l with
  | some (ry, pl) =>
    match l.drop pl with
    | sep :: rest =>
      if isDateSep sep then
        match matchMDSlash rest with
        | some (m, dd, len2) => some (2018 + ry, m, dd, pl + 1 + len2)
        | none => none
      else none
    | [] => none
  | none => none

/-- Recursion core of `scanMatches` (fuel bounds the depth). -/
def scanMatchesAux (matcher : Str → Option (Nat × Nat × Nat × Nat)) :
    Nat → Str → Nat → List (Nat × Nat × Nat × Nat)
  | 0, _, _ => []
  | _, [], _ => []
  | fuel + 1, l@(_ :: rest), pos =>
    match matcher l with
    | some (y, m, d, len) =>
      (pos, y, m, d) ::
        scanMatchesAux matcher fuel (l.drop (max len 1)) (pos + max len 1)
    | none => scanMatchesAux matcher fuel rest (pos + 1)

/-- Embeds `re.finditer(pattern, ocr_text)` for one date pattern: scans
left to right, emitting `(start, year, month, day)` for each
non-overlapping match. -/
def scanMatches (matcher : Str → Option (Nat × Nat × Nat × Nat))
    (text : Str) : List (Nat × Nat × Nat × Nat) :=
  scanMatchesAux matcher text.length text 0

/-- The label positions of lines 332-335: `m.end()` of every occurrence
of every date-label keyword. -/
def dateLabelPositions (text : Str) : List Nat :=
  (dateLabelKeywords.map (fun kw =>
    (scanKw kw text 0).map (fun s => s + kw.length))).flatten

/-- One scored date candidate, mirroring the source tuple
`(date_str, score, year, pos)` of line 372. -/
structure DateCand where
  str : Str
  score : Int
  year : Nat
  pos : Nat
deriving DecidableEq

/-- Zero-padded decimal rendering of `n` to (at least) `w` digits:
Python `f"{n:0wd}"`. -/
def padNum (w : Nat) (n : Nat) : Str :=
  let ds := (Nat.toDigits 10 n)
  List.replicate (w - ds.length) '0' ++ ds

/-- The date string `f"{year:04d}/{month:02d}/{day:02d}"` (line 371). -/
def fmtDate (y m d : Nat) : Str :=
  padNum 4 y ++ '/' :: padNum 2 m ++ '/' :: padNum 2 d

/-- The `+10` label-proximity bonus of lines 359-363: awarded once when
some label end-position `lp` satisfies `0 <= pos - lp <= 30`. -/
def labelBonus (lps : List Nat) (pos : Nat) : Int :=
  if lps.any (fun lp => lp ≤ pos ∧ pos ≤ lp + 30) then 10 else 0

/-- The year-plausibility score of lines 365-369: `+5` within
`CURRENT_YEAR ± 2`, else `-5`. -/
def yearScore (y : Nat) : Int :=
  if CURRENT_YEAR - 2 ≤ y ∧ y ≤ CURRENT_YEAR + 2 then 5 else -5

/-- Syntactic validity check of line 353. -/
def validDate (y m d : Nat) : Bool :=
  1 ≤ m ∧ m ≤ 12 ∧ 1 ≤ d ∧ d ≤ 31 ∧ 2000 ≤ y ∧ y ≤ 2099

/-- All scored candidates of `_extract_best_date` (lines 337-372), in
source order: the four patterns in their list order, positions ascending
within each, invalid dates skipped. -/
def dateCandidatesOf (text : Str) : List DateCand :=
  let lps := dateLabelPositions text
  let raw :=
    scanMatches matchSlashAt text ++ scanMatches matchKanjiAt text ++
    scanMatches matchReiwaKanjiAt text ++ scanMatches matchReiwaSlashAt text
  (raw.filter (fun t => validDate t.2.1 t.2.2.1 t.2.2.2)).map (fun t =>
    ⟨fmtDate t.2.1 t.2.2.1 t.2.2.2, labelBonus lps t.1 + yearScore t.2.1,
     t.2.1, t.1⟩)

/-- Sort key of line 390: `key=lambda x: (-x[1], x[3])`, i.e. score
descending then position ascending. -/
def candLE (a b : DateCand) : Prop :=
  a.score > b.score ∨ (a.score = b.score ∧ a.pos ≤ b.pos)

instance : DecidableRel candLE := fun a b => by
  unfold candLE; infer_instance

/-- Python `int(ai_date.split("/")[0])` (line 381): the text before the
first `/`, parsed as a decimal integer (optionally signed, optionally
whitespace-wrapped), `none` when `int()` would raise `ValueError`. -/
def parseYearPy (s : Str) : Option Int :=
  let pre := stripPy (s.takeWhile (fun c => c ≠ '/'))
  let core : Option (Bool × Str) :=
    match pre with
    | '-' :: rest => some (true, rest)
    | '+' :: rest => some (false, rest)
    | l => some (false, l)
  match core with
  | some (neg, ds) =>
    if ds.isEmpty ∨ ¬ ds.all isPyDigit then none
    else
      let v : Int := Int.ofNat (ds.foldl (fun acc c => 10 * acc + dVal c) 0)
      some (if neg then -v else v)
  | none => none

/-- Whether an integer year lies in the `CURRENT_YEAR ± 2` window. -/
def yearInWindowI (y : Int) : Bool :=
  (CURRENT_YEAR : Int) - 2 ≤ y ∧ y ≤ (CURRENT_YEAR : Int) + 2

/-- Embeds `_extract_best_date` (gemini_client.py lines 302-403),
dropping only the debug string of the source's 3-tuple: returns the
chosen date and `needs_review`. -/
def extractBestDate (text aiDate : Str) : Str × Bool :=
  if text.isEmpty then (aiDate, aiDate.isEmpty)
  else
    let cands := dateCandidatesOf text
    if cands.isEmpty then
      let nr :=
        match parseYearPy aiDate with
        | some y => !yearInWindowI y
        | none => false
      (aiDate, nr)
    else
      -- `candidates.sort(...)` is Python's stable sort; `insertionSort`
      -- is stable for the same comparator
      let best := (cands.insertionSort candLE).headD ⟨[], 0, 0, 0⟩
      (best.str,
       !(decide (CURRENT_YEAR - 2 ≤ best.year ∧ best.year ≤ CURRENT_YEAR + 2)))

/-! ### Data model — `models.py` -/

/-- The `TaxRate` enumeration (models.py lines 5-10). -/
inductive TaxRate where
  | rate10
  | rate8
  | rate8Reduced
  | exempt
  | unknown
deriving DecidableEq

/-- The `PaymentMethod` enumeration (models.py lines 12-16). -/
inductive PaymentMethod where
  | cash
  | paypay
  | credit
  | unknown
deriving DecidableEq

/-- The `Category` enumeration (models.py lines 18-27). -/
inductive Category where
  | travel
  | parking
  | toll
  | meeting
  | entertainment
  | supplies
  | dues
  | other
  | unknown
deriving DecidableEq

/-- One provenance entry of `merge_candidates` (gemini_client.py lines
926-935). -/
structure Prov where
  date : Str
  vendor : Str
  total_amount : Int
  invoice_no : Str
  needs_review : Bool
  source : Str
deriving DecidableEq

/-- The `ReceiptRecord` model (models.py lines 29-66), restricted to the
fields the engine reads or writes. -/
structure ReceiptRecord where
  date : Str := []
  vendor : Str := []
  subject : Str := []
  total_amount : Int := 0
  invoice_no_norm : Str := []
  invoice_candidate : Str := []
  qualified_flag : Str := []
  tax_rate_detected : TaxRate := .unknown
  payment_method : PaymentMethod := .unknown
  category : Category := .unknown
  needs_review : Bool := true
  missing_fields : List Str := []
  segment_id : Option Str := none
  region : Option (List Int) := none
  merge_candidates : List Prov := []
  merge_reason : Str := []
  group_id : Str := []
  is_confirmed : Bool := false
  is_discarded : Bool := false
  backend_used : Str := []
  image_path : Str := []
deriving DecidableEq

/-- Embeds `_map_tax_rate` (gemini_client.py lines 410-418). -/
def mapTaxRate (s : Str) : TaxRate :=
  if s = "10".toList then .rate10
  else if s = "8".toList then .rate8
  else if s = "8_reduced".toList then .rate8Reduced
  else if s = "exempt".toList then .exempt
  else .unknown

/-- Embeds `_map_payment` (gemini_client.py lines 421-430). -/
def mapPayment (clue : Str) : PaymentMethod :=
  let c := stripPy (lowerStr clue)
  if c = "cash".toList then .cash
  else if c = "paypay".toList then .paypay
  else if c = "credit".toList then .credit
  else .unknown

/-- One parsed backend-response item as consumed by the per-item loop of
`_analyze_single_image` (lines 577-682), with each `item.get(...)`
default already applied. -/
structure Item where
  date : Str := []
  vendor : Str := "?".toList
  subject : Str := []
  total_amount : Int := 0
  invoice_no_raw : Str := []
  tax_rate : Str := "unknown".toList
  payment_clues : Str := "unknown".toList
  ocr_full_text : Str := []
  box_2d : Option (List Int) := none

/-- Embeds the draft-record construction of `_analyze_single_image`
(gemini_client.py lines 576-682) for the whole-image call
(`offset_info=None`, so `box_2d` is stored as the region unchanged);
`i` is the enumeration index, `backend` the backend name. -/
def createRecord (item : Item) (i : Nat) (backend : Str) : ReceiptRecord :=
  let ocr := item.ocr_full_text
  let vendor := item.vendor
  let einv := extractInvoiceNoFromText ocr item.invoice_no_raw
  let edate := extractBestDate ocr item.date
  let invoiceNorm := einv.1
  let invoiceLowConf := einv.2
  let bestDate := edate.1
  let dateNeedsReview := edate.2
  let taxRate := mapTaxRate item.tax_rate
  let payment := mapPayment item.payment_clues
  let missDate := bestDate.isEmpty
  let missVendor := vendor.isEmpty ∨ vendor = "?".toList
  let missAmount := item.total_amount = 0
  let missTax := taxRate = TaxRate.unknown
  let missPay := payment = PaymentMethod.unknown
  let missing : List Str :=
    (if missDate then ["date".toList] else []) ++
    (if missVendor then ["vendor".toList] else []) ++
    (if missAmount then ["total_amount".toList] else []) ++
    (if missTax then ["tax_rate".toList] else []) ++
    (if missPay then ["payment_method".toList] else []) ++
    (if dateNeedsReview then ["date_year_out_of_range".toList] else []) ++
    (if invoiceLowConf then ["invoice_no_candidate".toList] else [])
  let needsReview : Bool :=
    missDate ∨ missVendor ∨ missAmount ∨ missTax ∨ missPay ∨
    dateNeedsReview ∨ invoiceLowConf
  let invoiceConfirmed := if invoiceLowConf then [] else invoiceNorm
  let invoiceCandidate := if invoiceLowConf then invoiceNorm else []
  let region : Option (List Int) :=
    match item.box_2d with
    | some l => if l.length = 4 then some l else none
    | none => none
  { date := bestDate
    vendor := vendor
    subject := item.subject
    total_amount := item.total_amount
    invoice_no_norm := invoiceConfirmed
    invoice_candidate := invoiceCandidate
    qualified_flag := if invoiceConfirmed.isEmpty then [] else "○".toList
    tax_rate_detected := taxRate
    payment_method := payment
    category := .unknown
    needs_review := needsReview
    missing_fields := missing
    segment_id := some ("seg_".toList ++ Nat.toDigits 10 i)
    region := region
    backend_used := backend }

/-! ### Reconciliation engine — `_merge_records` -/

/-- Characters kept by `_normalize_text` (gemini_client.py line 741):
ASCII digits and lower-case letters, hiragana, katakana, and the CJK
range U+4E00..U+9FAF. -/
def isKeptChar (c : Char) : Bool :=
  c.isDigit ∨ ('a' ≤ c ∧ c ≤ 'z') ∨
  (0x3040 ≤ c.toNat ∧ c.toNat ≤ 0x309F) ∨
  (0x30A0 ≤ c.toNat ∧ c.toNat ≤ 0x30FF) ∨
  (0x4E00 ≤ c.toNat ∧ c.toNat ≤ 0x9FAF)

/-- Embeds `_normalize_text` (gemini_client.py lines 734-741): NFKC fold,
lower-case, strip everything outside the kept classes. -/
def normalizeText (s : Str) : Str :=
  (lowerStr (zenToHan s)).filter isKeptChar

/-- The vendor-match rule of the fuzzy pass (lines 826-835), applied to
normalized vendor strings. -/
def vendorsMatch (v1 v2 : Str) : Bool :=
  v1 = v2 ∨ v1.isEmpty ∨ v2.isEmpty ∨
  v1 = "unknown".toList ∨ v2 = "unknown".toList ∨
  containsSub v2 v1 ∨ containsSub v1 v2

/-- Seed condition of the fuzzy pass (line 811): date present and a
positive amount. -/
def fuzzySeed (r : ReceiptRecord) : Bool := !r.date.isEmpty ∧ r.total_amount > 0

/-- Member condition of the fuzzy pass with seed `r1` (lines 823-835). -/
def fuzzyMatchR (r1 r2 : ReceiptRecord) : Bool :=
  r1.date = r2.date ∧ r1.total_amount = r2.total_amount ∧
  vendorsMatch (normalizeText r1.vendor) (normalizeText r2.vendor)

/-- Grouping key of strategy 2 (lines 852-858): requires date, positive
amount and a non-empty normalized subject. -/
def key2 (r : ReceiptRecord) : Option (Str × Int × Str) :=
  if !r.date.isEmpty ∧ r.total_amount > 0 ∧ !(normalizeText r.subject).isEmpty
  then some (r.date, r.total_amount, normalizeText r.subject)
  else none

/-- Grouping key of strategy 3 (lines 870-875): requires a positive
amount and a known vendor; the subject may be empty. -/
def key3 (r : ReceiptRecord) : Option (Int × Str × Str) :=
  if r.total_amount > 0 ∧ !r.vendor.isEmpty ∧ r.vendor ≠ "?".toList
  then some (r.total_amount, normalizeText r.vendor, normalizeText r.subject)
  else none

/-- Recursion core of `scanPass` (fuel bounds the depth; with exhausted
fuel the remaining list is passed through untouched, which never happens
for the fuel used by `scanPass`). -/
def scanPassAux (canSeed : α → Bool) (mtch : α → α → Bool) :
    Nat → List α → List (List α) × List α
  | 0, l => ([], l)
  | _, [] => ([], [])
  | fuel + 1, i :: rest =>
    if canSeed i then
      let ms := rest.filter (fun j => mtch i j)
      if ms.isEmpty then
        let p := scanPassAux canSeed mtch fuel rest
        (p.1, i :: p.2)
      else
        let p := scanPassAux canSeed mtch fuel (rest.filter (fun j => !mtch i j))
        ((i :: ms) :: p.1, p.2)
    else
      let p := scanPassAux canSeed mtch fuel rest
      (p.1, i :: p.2)

/-- One grouping pass over the not-yet-grouped elements, in ascending
index order: each seed claims every later matching element; elements of
a formed group are removed from later consideration; a seed with no
match, or a non-seed, stays unclaimed.  This is the common shape of the
fuzzy pass (lines 801-848) and — because Python dicts iterate in
insertion order — of the `defaultdict` bucket passes of strategies 2
and 3 (lines 850-883), whose groups also appear in first-occurrence
order with members in ascending index order. -/
def scanPass (canSeed : α → Bool) (mtch : α → α → Bool) (l : List α) :
    List (List α) × List α :=
  scanPassAux canSeed mtch l.length l

/-- Group label carrying the pass that formed the group and the seed
index, mirroring the `gid` strings `f"fuzzy_{i}"`, `f"strat2_{i}"`,
`f"strat3_{i}"` and the bare integer ids of singleton groups. -/
inductive GroupTag where
  | fuzzy (i : Nat)
  | strat2 (i : Nat)
  | strat3 (i : Nat)
  | single (i : Nat)
deriving DecidableEq

/-- The `str(gid)` rendering used for `group_id` (line 923). -/
def groupIdStr : GroupTag → Str
  | .fuzzy i => "fuzzy_".toList ++ Nat.toDigits 10 i
  | .strat2 i => "strat2_".toList ++ Nat.toDigits 10 i
  | .strat3 i => "strat3_".toList ++ Nat.toDigits 10 i
  | .single i => Nat.toDigits 10 i

/-- The `group_reasons` strings (lines 844, 863, 880); singleton groups
never look one up, and the `.get` default is "Unknown Strategy". -/
def reasonStr : GroupTag → Str
  | .fuzzy _ => "Fuzzy Match (Date/Amount + Vendor)".toList
  | .strat2 _ => "Exact Match (Date/Amount/Subject)".toList
  | .strat3 _ => "Fallback Match (Amount/Vendor/Subject)".toList
  | .single _ => "Unknown Strategy".toList

/-- Seed index of a group (its first member's index). -/
def seedIdx (g : List (Nat × ReceiptRecord)) : Nat := (g.headD (0, {})).1

/-- Seed predicate of the fuzzy pass on enumerated records. -/
def fuzzySeedP (p : Nat × ReceiptRecord) : Bool := fuzzySeed p.2

/-- Match predicate of the fuzzy pass on enumerated records. -/
def fuzzyMatchP (p q : Nat × ReceiptRecord) : Bool := fuzzyMatchR p.2 q.2

/-- Seed predicate of strategy 2 (a key exists). -/
def seed2P (p : Nat × ReceiptRecord) : Bool := (key2 p.2).isSome

/-- Match predicate of strategy 2: equal existing keys. -/
def match2P (p q : Nat × ReceiptRecord) : Bool :=
  key2 q.2 = key2 p.2 ∧ (key2 p.2).isSome

/-- Seed predicate of strategy 3 (a key exists). -/
def seed3P (p : Nat × ReceiptRecord) : Bool := (key3 p.2).isSome

/-- Match predicate of strategy 3: equal existing keys. -/
def match3P (p q : Nat × ReceiptRecord) : Bool :=
  key3 q.2 = key3 p.2 ∧ (key3 p.2).isSome

/-- Embeds the grouping phase of `_merge_records` (gemini_client.py lines
783-887): fuzzy pass, strategy 2, strategy 3, then singleton groups, in
the insertion order of the `groups` dict. -/
def mergeGroups (recs : List ReceiptRecord) :
    List (GroupTag × List (Nat × ReceiptRecord)) :=
  let p1 := scanPass fuzzySeedP fuzzyMatchP recs.enum
  let p2 := scanPass seed2P match2P p1.2
  let p3 := scanPass seed3P match3P p2.2
  p1.1.map (fun g => (GroupTag.fuzzy (seedIdx g), g)) ++
  p2.1.map (fun g => (GroupTag.strat2 (seedIdx g), g)) ++
  p3.1.map (fun g => (GroupTag.strat3 (seedIdx g), g)) ++
  p3.2.map (fun p => (GroupTag.single p.1, [p]))

/-- Embeds `_calculate_score` (gemini_client.py lines 750-768). -/
def calculateScore (rec : ReceiptRecord) : Int :=
  (if !rec.invoice_no_norm.isEmpty then 30 else 0) +
  (if !rec.invoice_candidate.isEmpty then 10 else 0) +
  (if !rec.date.isEmpty then 20 else 0) +
  (if !rec.vendor.isEmpty ∧ rec.vendor ≠ "?".toList then 15 else 0) +
  (if rec.total_amount > 0 then 15 else 0) +
  (if rec.tax_rate_detected ≠ TaxRate.unknown then 10 else 0) +
  (if rec.payment_method ≠ PaymentMethod.unknown then 10 else 0) -
  rec.missing_fields.length * 5 -
  (if rec.needs_review then 5 else 0)

/-- Python `max(group_recs, key=_calculate_score)`: the first element of
maximal score (a later element replaces the current best only when
strictly greater). -/
def pickBest (b : ReceiptRecord) : List ReceiptRecord → ReceiptRecord
  | [] => b
  | x :: xs =>
    pickBest (if calculateScore x > calculateScore b then x else b) xs

/-- The provenance snapshot of one group member (lines 927-935). -/
def provOf (r : ReceiptRecord) : Prov :=
  { date := r.date
    vendor := r.vendor
    total_amount := r.total_amount
    invoice_no := r.invoice_no_norm
    needs_review := r.needs_review
    source := if (r.segment_id.getD []).isEmpty then "full".toList
              else "split".toList }

/-- Embeds the per-group merge of `_merge_records` (lines 892-938):
singleton groups pass through unchanged; in a multi-member group the
scored representative adopts a member's confirmed invoice when it lacks
one (setting the qualified flag, line 918-920) and records the group
metadata. -/
def mergeGroup (t : GroupTag) (g : List ReceiptRecord) : ReceiptRecord :=
  match g with
  | [] => {}
  | [r] => r
  | r :: rs =>
    let best := pickBest r rs
    let finalInvoice :=
      if best.invoice_no_norm.isEmpty then
        match (r :: rs).find? (fun x => !x.invoice_no_norm.isEmpty) with
        | some x => x.invoice_no_norm
        | none => []
      else best.invoice_no_norm
    let best :=
      if !finalInvoice.isEmpty ∧ best.invoice_no_norm.isEmpty then
        { best with invoice_no_norm := finalInvoice,
                    qualified_flag := "○".toList }
      else best
    { best with group_id := groupIdStr t
                merge_reason := reasonStr t
                merge_candidates := (r :: rs).map provOf }

/-- Embeds `_merge_records` (gemini_client.py lines 770-944), dropping
only the log strings: grouping, then one representative per group. -/
def mergeRecords (recs : List ReceiptRecord) : List ReceiptRecord :=
  (mergeGroups recs).map (fun tg => mergeGroup tg.1 (tg.2.map Prod.snd))

/-! ### Tile-to-global coordinate conversion

The conversion of `_analyze_single_image` lines 638-659 computes with
Python floats; it is modelled here in exact rational arithmetic with
`int()` truncation, the claim being about the conversion's algebra
("within integer rounding"). -/

/-- Python `int()` applied to a (rational) float: truncation toward 0. -/
def pyInt (q : ℚ) : Int := if 0 ≤ q then q.floor else -((-q).floor)

/-- The `offset_info` tuple `(off_y, off_x, crop_h, crop_w, orig_h,
orig_w)` produced by `_split_image` (line 135). -/
structure OffsetInfo where
  offY : Int
  offX : Int
  cropH : Int
  cropW : Int
  origH : Int
  origW : Int
deriving DecidableEq

/-- Embeds the `box_2d` conversion of `_analyze_single_image` (lines
633-659) for a tile call: tile-local [0,1000] coordinates are scaled to
tile pixels, shifted by the tile offset, and re-normalized against the
full image; `none` when the box is not a 4-list or the original
dimensions are not positive (in which case the source leaves `region =
None`). -/
def convertBox (box : List Int) (o : OffsetInfo) : Option (List Int) :=
  match box with
  | [ymin, xmin, ymax, xmax] =>
    let localY : ℚ := (ymin : ℚ) / 1000 * (o.cropH : ℚ)
    let localX : ℚ := (xmin : ℚ) / 1000 * (o.cropW : ℚ)
    let localH : ℚ := ((ymax - ymin : Int) : ℚ) / 1000 * (o.cropH : ℚ)
    let localW : ℚ := ((xmax - xmin : Int) : ℚ) / 1000 * (o.cropW : ℚ)
    let globalY : ℚ := (o.offY : ℚ) + localY
    let globalX : ℚ := (o.offX : ℚ) + localX
    if o.origH > 0 ∧ o.origW > 0 then
      some [pyInt (globalY / (o.origH : ℚ) * 1000),
            pyInt (globalX / (o.origW : ℚ) * 1000),
            pyInt ((globalY + localH) / (o.origH : ℚ) * 1000),
            pyInt ((globalX + localW) / (o.origW : ℚ) * 1000)]
    else none
  | _ => none

/-- The global normalized `box_2d` a direct whole-image detection would
report for an exact pixel rectangle with top-left `(py, px)` and size
`(ph, pw)` inside an `origH × origW` image, following the prompt's
convention (coordinates scaled to 0-1000, `int()`-truncated).  This is
the specification-side comparator for the conversion claim. -/
def directGlobalBox (py px ph pw : ℚ) (origH origW : ℚ) : List Int :=
  [pyInt (py / origH * 1000), pyInt (px / origW * 1000),
   pyInt ((py + ph) / origH * 1000), pyInt ((px + pw) / origW * 1000)]

/-- The physical pixel rectangle denoted by a tile-local box:
top-left corner in image-pixel space. -/
def tilePixelTop (ymin : Int) (o : OffsetInfo) : ℚ :=
  (o.offY : ℚ) + (ymin : ℚ) / 1000 * (o.cropH : ℚ)

/-- Left edge of the physical pixel rectangle of a tile-local box. -/
def tilePixelLeft (xmin : Int) (o : OffsetInfo) : ℚ :=
  (o.offX : ℚ) + (xmin : ℚ) / 1000 * (o.cropW : ℚ)

/-- Height of the physical pixel rectangle of a tile-local box. -/
def tilePixelHeight (ymin ymax : Int) (o : OffsetInfo) : ℚ :=
  ((ymax - ymin : Int) : ℚ) / 1000 * (o.cropH : ℚ)

/-- Width of the physical pixel rectangle of a tile-local box. -/
def tilePixelWidth (xmin xmax : Int) (o : OffsetInfo) : ℚ :=
  ((xmax - xmin : Int) : ℚ) / 1000 * (o.cropW : ℚ)

/-! ### Helper lemmas -/

/-- Bridge lemma: `Rat.floor` agrees with the `Int.floor` notation on `ℚ`. -/
theorem ratFloor_eq_floor (q : ℚ) : Rat.floor q = ⌊q⌋ := by
  rw [Rat.floor_def', Rat.floor_def]

/-- A grouping pass emits its groups and its untouched remainder as a
permutation of its input. -/
theorem scanPassAux_perm (cs : α → Bool) (m : α → α → Bool) :
    ∀ (fuel : Nat) (l : List α),
      List.Perm ((scanPassAux cs m fuel l).1.flatten ++
        (scanPassAux cs m fuel l).2) l := by
  intro fuel
  induction fuel with
  | zero => intro l; simp [scanPassAux]
  | succ n ih =>
    intro l
    match l with
    | [] => simp [scanPassAux]
    | i :: rest =>
      simp only [scanPassAux]
      by_cases hseed : cs i
      · simp only [hseed, if_true]
        by_cases hms : (rest.filter (fun j => m i j)).isEmpty
        · simp only [hms, if_true]
          exact List.perm_middle.trans ((ih rest).cons i)
        · simp only [hms, Bool.false_eq_true, if_false, List.flatten_cons,
            List.cons_append, List.append_assoc]
          refine List.Perm.cons i ?_
          refine (List.Perm.append_left _ (ih (rest.filter (fun j => !m i j)))).trans ?_
          exact List.filter_append_perm _ rest
      · simp only [hseed, Bool.false_eq_true, if_false]
        exact List.perm_middle.trans ((ih rest).cons i)

/-- Restatement of `scanPassAux_perm` for `scanPass`. -/
theorem scanPass_perm (cs : α → Bool) (m : α → α → Bool) (l : List α) :
    List.Perm ((scanPass cs m l).1.flatten ++ (scanPass cs m l).2) l :=
  scanPassAux_perm cs m l.length l

/-- Groups formed by a pass are never empty. -/
theorem scanPassAux_groups_ne (cs : α → Bool) (m : α → α → Bool) :
    ∀ (fuel : Nat) (l : List α) (g : List α),
      g ∈ (scanPassAux cs m fuel l).1 → g ≠ [] := by
  intro fuel
  induction fuel with
  | zero => intro l g hg; simp [scanPassAux] at hg
  | succ n ih =>
    intro l g hg
    match l with
    | [] => simp [scanPassAux] at hg
    | i :: rest =>
      simp only [scanPassAux] at hg
      by_cases hseed : cs i
      · simp only [hseed, if_true] at hg
        by_cases hms : (rest.filter (fun j => m i j)).isEmpty
        · simp only [hms, if_true] at hg
          exact ih rest g hg
        · simp only [hms, Bool.false_eq_true, if_false, List.mem_cons] at hg
          rcases hg with h | h
          · subst h; simp
          · exact ih _ g h
      · simp only [hseed, Bool.false_eq_true, if_false] at hg
        exact ih rest g hg

/-- A list of non-empty lists has no more entries than total elements. -/
theorem length_le_flatten_length :
    ∀ (L : List (List β)), (∀ g ∈ L, g ≠ []) → L.length ≤ L.flatten.length := by
  intro L
  induction L with
  | nil => simp
  | cons g gs ih =>
    intro h
    have hg : g ≠ [] := h g (by simp)
    have hlen : 1 ≤ g.length := by
      cases g with
      | nil => exact absurd rfl hg
      | cons a as => simp
    have := ih (fun x hx => h x (by simp [hx]))
    simp only [List.flatten_cons, List.length_append, List.length_cons]
    omega

/-- Flattening singleton lists recovers the original list. -/
theorem flatten_map_singleton (l : List β) :
    (l.map (fun x => [x])).flatten = l := by
  induction l with
  | nil => rfl
  | cons a as ih => simp [ih]

/-- The flattened member lists of `mergeGroups` are a permutation of the
enumerated input. -/
theorem mergeGroups_perm (recs : List ReceiptRecord) :
    List.Perm ((mergeGroups recs).map (fun tg => tg.2)).flatten recs.enum := by
  unfold mergeGroups
  simp only [List.map_append, List.map_map, List.flatten_append,
    Function.comp_def, flatten_map_singleton, List.map_id_fun, List.map_id,
    List.map_id', id, List.append_assoc]
  have e1 := scanPass_perm fuzzySeedP fuzzyMatchP recs.enum
  have e2 := scanPass_perm seed2P match2P (scanPass fuzzySeedP fuzzyMatchP recs.enum).2
  have e3 := scanPass_perm seed3P match3P
    (scanPass seed2P match2P (scanPass fuzzySeedP fuzzyMatchP recs.enum).2).2
  show List.Perm (_ ++ (_ ++ (_ ++ _))) recs.enum
  exact (List.Perm.append_left _ ((List.Perm.append_left _ e3).trans e2)).trans e1

/-- Every member list of a `mergeGroups` group is non-empty. -/
theorem mergeGroups_groups_ne (recs : List ReceiptRecord) :
    ∀ tg ∈ mergeGroups recs, tg.2 ≠ [] := by
  intro tg htg
  unfold mergeGroups at htg
  simp only [List.mem_append, List.mem_map] at htg
  rcases htg with ((⟨g, hg, he⟩ | ⟨g, hg, he⟩) | ⟨g, hg, he⟩) | ⟨p, hp, he⟩
  · rw [← he]; exact scanPassAux_groups_ne _ _ _ _ g hg
  · rw [← he]; exact scanPassAux_groups_ne _ _ _ _ g hg
  · rw [← he]; exact scanPassAux_groups_ne _ _ _ _ g hg
  · rw [← he]; simp

/-- Every record inside a group is one of the input records. -/
theorem mergeGroups_member (recs : List ReceiptRecord) :
    ∀ tg ∈ mergeGroups recs, ∀ p ∈ tg.2, p.2 ∈ recs := by
  intro tg htg p hp
  have hflat : p ∈ ((mergeGroups recs).map (fun tg => tg.2)).flatten := by
    rw [List.mem_flatten]
    exact ⟨tg.2, List.mem_map_of_mem _ htg, hp⟩
  have henum : p ∈ recs.enum := (mergeGroups_perm recs).mem_iff.mp hflat
  rw [List.enum_eq_zip_range] at henum
  exact (List.of_mem_zip (by exact henum)).2

/-- Python `max(_, key=...)` characterization: the chosen element splits
the list so that everything before it scores strictly lower and
everything after it scores no higher. -/
theorem pickBest_spec :
    ∀ (rs : List ReceiptRecord) (b : ReceiptRecord),
      ∃ pre post, b :: rs = pre ++ pickBest b rs :: post ∧
        (∀ x ∈ pre, calculateScore x < calculateScore (pickBest b rs)) ∧
        (∀ x ∈ post, calculateScore x ≤ calculateScore (pickBest b rs))
  | [], b => ⟨[], [], by simp [pickBest], by simp, by simp [pickBest]⟩
  | x :: xs, b => by
    have hunfold : pickBest b (x :: xs) =
        pickBest (if calculateScore x > calculateScore b then x else b) xs := rfl
    obtain ⟨pre, post, heq, hpre, hpost⟩ :=
      pickBest_spec xs (if calculateScore x > calculateScore b then x else b)
    by_cases hx : calculateScore x > calculateScore b
    · simp only [if_pos hx] at heq hpre hpost
      rw [hunfold, if_pos hx]
      -- head of x :: xs scores at most the chosen element
      have hxle : calculateScore x ≤ calculateScore (pickBest x xs) := by
        cases pre with
        | nil =>
          have : x = pickBest x xs := by
            have := heq; simp only [List.nil_append] at this
            exact (List.cons_eq_cons.mp this).1
          rw [← this]
        | cons h t =>
          have hhead : h = x := by
            have := heq; simp only [List.cons_append] at this
            exact ((List.cons_eq_cons.mp this).1).symm
          have hlt := hpre h (by simp)
          rw [hhead] at hlt
          exact le_of_lt hlt
      refine ⟨b :: pre, post, ?_, ?_, hpost⟩
      · simp [heq]
      · intro y hy
        rcases List.mem_cons.mp hy with h | h
        · subst h
          exact lt_of_lt_of_le hx hxle
        · exact hpre y h
    · simp only [if_neg hx] at heq hpre hpost
      rw [hunfold, if_neg hx]
      push_neg at hx
      cases pre with
      | nil =>
        have hb : b = pickBest b xs ∧ xs = post := by
          have := heq; simp only [List.nil_append] at this
          exact ⟨(List.cons_eq_cons.mp this).1, (List.cons_eq_cons.mp this).2⟩
        refine ⟨[], x :: xs, by rw [List.nil_append, ← hb.1], by simp, ?_⟩
        intro y hy
        rcases List.mem_cons.mp hy with h | h
        · subst h; rw [← hb.1]; exact hx
        · rw [hb.2] at h; exact hpost y h
      | cons h t =>
        have hhb : h = b ∧ xs = t ++ pickBest b xs :: post := by
          have := heq; simp only [List.cons_append] at this
          exact ⟨((List.cons_eq_cons.mp this).1).symm, (List.cons_eq_cons.mp this).2⟩
        have hblt : calculateScore b < calculateScore (pickBest b xs) := by
          have := hpre h (by simp)
          rwa [hhb.1] at this
        refine ⟨b :: x :: t, post, ?_, ?_, hpost⟩
        · rw [List.cons_append, List.cons_append, ← hhb.2]
        · intro y hy
          rcases List.mem_cons.mp hy with h1 | h1
          · subst h1; exact hblt
          rcases List.mem_cons.mp h1 with h2 | h2
          · subst h2; exact lt_of_le_of_lt hx hblt
          · exact hpre y (by simp [h2])

/-- The chosen representative is a member of the group. -/
theorem pickBest_mem (rs : List ReceiptRecord) (b : ReceiptRecord) :
    pickBest b rs ∈ b :: rs := by
  obtain ⟨pre, post, heq, -, -⟩ := pickBest_spec rs b
  rw [heq]
  exact List.mem_append.mpr (Or.inr (by simp))

/-- The chosen representative attains the maximal score. -/
theorem pickBest_max (rs : List ReceiptRecord) (b : ReceiptRecord) :
    ∀ x ∈ b :: rs, calculateScore x ≤ calculateScore (pickBest b rs) := by
  obtain ⟨pre, post, heq, hpre, hpost⟩ := pickBest_spec rs b
  intro x hx
  rw [heq] at hx
  rcases List.mem_append.mp hx with h | h
  · exact le_of_lt (hpre x h)
  · rcases List.mem_cons.mp h with h1 | h1
    · rw [h1]
    · exact hpost x h1

instance : IsTotal DateCand candLE := by
  constructor
  intro a b
  unfold candLE
  rcases lt_trichotomy a.score b.score with h | h | h
  · right; left; omega
  · rcases Nat.le_total a.pos b.pos with hp | hp
    · left; right; exact ⟨h, hp⟩
    · right; right; exact ⟨h.symm, hp⟩
  · left; left; omega

instance : IsTrans DateCand candLE := by
  constructor
  intro a b c hab hbc
  unfold candLE at *
  rcases hab with h1 | ⟨h1, h1p⟩ <;> rcases hbc with h2 | ⟨h2, h2p⟩ <;>
    first
      | (left; omega)
      | (right; exact ⟨by omega, by omega⟩)

/-- Reflexivity of `candLE`. -/
theorem candLE_refl (a : DateCand) : candLE a a := by
  unfold candLE; right; exact ⟨rfl, le_refl _⟩

/-- The head of the stable sort is a member that every candidate relates
to under the sort order. -/
theorem sortedHead_min (l : List DateCand) (d : DateCand) (h : l ≠ []) :
    (l.insertionSort candLE).headD d ∈ l ∧
      ∀ c ∈ l, candLE ((l.insertionSort candLE).headD d) c := by
  have hperm := List.perm_insertionSort candLE l
  have hsorted := List.sorted_insertionSort candLE l
  match hs : l.insertionSort candLE with
  | [] =>
    rw [hs] at hperm
    have : l = [] := hperm.symm.eq_nil
    exact absurd this h
  | b :: rest =>
    rw [hs] at hperm hsorted
    refine ⟨hperm.mem_iff.mp (by simp), ?_⟩
    intro c hc
    have hc2 : c ∈ b :: rest := hperm.mem_iff.mpr hc
    rcases List.mem_cons.mp hc2 with h1 | h1
    · subst h1; simpa using candLE_refl _
    · simpa using List.rel_of_sorted_cons hsorted c h1

/-- Additivity of `digitCount` over concatenation. -/
theorem digitCount_append (a b : Str) :
    digitCount (a ++ b) = digitCount a + digitCount b := by
  unfold digitCount
  rw [List.filter_append, List.length_append]

/-- Any hit of the cumulative-concatenation loop uses between 1 and
`fuel` further tokens, has a cumulative digit count in [12,14] at the
moment of the hit, and is the successful normalization of the
concatenation, flagged low-confidence. -/
theorem tryCombine_spec :
    ∀ (fuel : Nat) (rest : List Str) (comb : Str) (r : Str × Bool),
      tryCombine comb (digitCount comb) rest fuel = some r →
      ∃ k, 1 ≤ k ∧ k ≤ fuel ∧
        12 ≤ digitCount (comb ++ (rest.take k).flatten) ∧
        digitCount (comb ++ (rest.take k).flatten) ≤ 14 ∧
        (normalizeInvoiceCandidate (comb ++ (rest.take k).flatten)).1 ≠ [] ∧
        r = ((normalizeInvoiceCandidate (comb ++ (rest.take k).flatten)).1, true) := by
  intro fuel
  induction fuel with
  | zero => intro rest comb r hr; simp [tryCombine] at hr
  | succ n ih =>
    intro rest comb r hr
    match rest with
    | [] => simp [tryCombine] at hr
    | t :: ts =>
      simp only [tryCombine] at hr
      rw [← digitCount_append] at hr
      by_cases hrange : 12 ≤ digitCount (comb ++ t) ∧ digitCount (comb ++ t) ≤ 14
      · rw [if_pos hrange] at hr
        by_cases hnorm : (normalizeInvoiceCandidate (comb ++ t)).1.isEmpty
        · rw [if_pos hnorm] at hr
          obtain ⟨k, hk1, hk2, h12, h14, hne, he⟩ := ih ts (comb ++ t) r hr
          refine ⟨k + 1, by omega, by omega, ?_, ?_, ?_, ?_⟩ <;>
            rw [List.take_succ_cons, List.flatten_cons, ← List.append_assoc] <;>
            assumption
        · rw [if_neg hnorm] at hr
          refine ⟨1, le_refl _, by omega, ?_, ?_, ?_, ?_⟩ <;>
            simp only [List.take_succ_cons, List.take_zero, List.flatten_cons,
              List.flatten_nil, List.append_nil]
          · exact hrange.1
          · exact hrange.2
          · simpa using hnorm
          · simpa using hr.symm
      · rw [if_neg hrange] at hr
        by_cases hover : 14 < digitCount (comb ++ t)
        · rw [if_pos hover] at hr; exact absurd hr (by simp)
        · rw [if_neg hover] at hr
          obtain ⟨k, hk1, hk2, h12, h14, hne, he⟩ := ih ts (comb ++ t) r hr
          refine ⟨k + 1, by omega, by omega, ?_, ?_, ?_, ?_⟩ <;>
            rw [List.take_succ_cons, List.flatten_cons, ← List.append_assoc] <;>
            assumption

/-- Any result of the token-merge fallback is flagged low-confidence and
arises from a `[TＴt]`-headed token concatenated with at most the 7
following tokens, the cumulative digit count being in [12,14]. -/
theorem blockMergeSearch_spec :
    ∀ (toks : List Str) (r : Str × Bool), blockMergeSearch toks = some r →
      r.2 = true ∧
      ∃ pre t rest, toks = pre ++ t :: rest ∧ isTHeadTok t ∧
        ∃ k, 1 ≤ k ∧ k ≤ 7 ∧
          12 ≤ digitCount (t ++ (rest.take k).flatten) ∧
          digitCount (t ++ (rest.take k).flatten) ≤ 14 ∧
          r.1 = (normalizeInvoiceCandidate (t ++ (rest.take k).flatten)).1 := by
  intro toks
  induction toks with
  | nil => intro r hr; simp [blockMergeSearch] at hr
  | cons t ts ih =>
    intro r hr
    simp only [blockMergeSearch] at hr
    by_cases ht : isTHeadTok t
    · rw [if_pos ht] at hr
      match htc : tryCombine t (digitCount t) ts 7 with
      | some r0 =>
        rw [htc] at hr
        simp only [Option.some.injEq] at hr
        subst hr
        obtain ⟨k, hk1, hk2, h12, h14, hne, he⟩ := tryCombine_spec 7 ts t r0 htc
        subst he
        exact ⟨rfl, [], t, ts, rfl, ht, k, hk1, hk2, h12, h14, rfl⟩
      | none =>
        rw [htc] at hr
        obtain ⟨hflag, pre, t2, rest, heq, ht2, hk⟩ := ih r hr
        exact ⟨hflag, t :: pre, t2, rest, by simp [heq], ht2, hk⟩
    · rw [if_neg ht] at hr
      obtain ⟨hflag, pre, t2, rest, heq, ht2, hk⟩ := ih r hr
      exact ⟨hflag, t :: pre, t2, rest, by simp [heq], ht2, hk⟩

/-! ### Claim theorems -/

/-- C2: invoice normalization folds full-width characters, strips every
dash variant and all whitespace, rejects anything not starting with `T`,
keeps the digits after the `T` (discarding stray characters), and then
decides by digit count: 13 digits give `T`+digits with high confidence,
12 give `T0`+digits with low confidence, 14 with a leading `0` give
`T`+digits[1:] with low confidence, anything else is rejected; the
full-width example `Ｔ１２３−４５６−７８９−０１２３` normalizes to
`T1234567890123` with high confidence. -/
theorem invoice_normalization_table :
    (∀ raw : Str,
      ((invoiceCleaned raw).head? ≠ some 'T' →
        normalizeInvoiceCandidate raw = ([], false)) ∧
      (∀ rest : Str, invoiceCleaned raw = 'T' :: rest →
        ((rest.filter Char.isDigit).length = 13 →
          normalizeInvoiceCandidate raw = ('T' :: rest.filter Char.isDigit, false)) ∧
        ((rest.filter Char.isDigit).length = 12 →
          normalizeInvoiceCandidate raw = ('T' :: '0' :: rest.filter Char.isDigit, true)) ∧
        ((rest.filter Char.isDigit).length = 14 →
          (rest.filter Char.isDigit).head? = some '0' →
          normalizeInvoiceCandidate raw =
            ('T' :: (rest.filter Char.isDigit).drop 1, true)) ∧
        ((rest.filter Char.isDigit).length ≠ 12 →
          (rest.filter Char.isDigit).length ≠ 13 →
          ¬((rest.filter Char.isDigit).length = 14 ∧
            (rest.filter Char.isDigit).head? = some '0') →
          normalizeInvoiceCandidate raw = ([], false)))) ∧
    normalizeInvoiceCandidate "Ｔ１２３−４５６−７８９−０１２３".toList =
      ("T1234567890123".toList, false) := by
  refine ⟨?_, by decide⟩
  intro raw
  constructor
  · intro hne
    unfold normalizeInvoiceCandidate
    by_cases hre : raw.isEmpty
    · simp [hre]
    · rw [if_neg (by simpa using hre)]
      match hc : invoiceCleaned raw with
      | [] => rfl
      | c :: rest =>
        rw [hc] at hne
        simp only [List.head?_cons, ne_eq, Option.some.injEq] at hne
        simp [hne]
  · intro rest hc
    have hraw : raw.isEmpty = false := by
      cases raw with
      | nil => simp [invoiceCleaned, zenToHan] at hc
      | cons a as => rfl
    unfold normalizeInvoiceCandidate
    rw [if_neg (by simp [hraw]), hc]
    simp only [reduceIte]
    refine ⟨?_, ?_, ?_, ?_⟩
    · intro h13; rw [if_pos h13]
    · intro h12
      rw [if_neg (by omega), if_pos h12]
    · intro h14 h0
      rw [if_neg (by omega), if_neg (by omega),
        if_pos (by simp [h14, h0])]
    · intro h12 h13 h14
      rw [if_neg h13, if_neg h12, if_neg (by
        simp only [Bool.and_eq_true, decide_eq_true_eq]
        intro hcon
        exact h14 ⟨hcon.1, hcon.2⟩)]

/-- Witness for C2 at a concrete 13-digit input. -/
theorem invoice_normalization_table_w :
    normalizeInvoiceCandidate "T1234567890123".toList =
      ("T1234567890123".toList, false) := by
  have h := (invoice_normalization_table.1 "T1234567890123".toList).2
    "1234567890123".toList (by decide)
  exact h.1 (by decide)

/-- C7: in the token-merge fallback every hit concatenates a `T`-token
with at most the next 7 tokens, normalization fires only while the
cumulative digit count is in [12,14], and every result of this path is
flagged low-confidence — including a 13-digit result that the direct
normalization path would flag high-confidence, both at the token level
and through the full extraction. -/
theorem token_merge_fallback :
    (∀ (toks : List Str) (r : Str × Bool), blockMergeSearch toks = some r →
      r.2 = true ∧
      ∃ pre t rest, toks = pre ++ t :: rest ∧ isTHeadTok t ∧
        ∃ k, 1 ≤ k ∧ k ≤ 7 ∧
          12 ≤ digitCount (t ++ (rest.take k).flatten) ∧
          digitCount (t ++ (rest.take k).flatten) ≤ 14 ∧
          r.1 = (normalizeInvoiceCandidate (t ++ (rest.take k).flatten)).1) ∧
    blockMergeSearch (tokenizeWindow "T 1234567890123".toList) =
      some ("T1234567890123".toList, true) ∧
    extractInvoiceNoFromText "登録番号 T_123_456_789_0123".toList [] =
      ("T1234567890123".toList, true) :=
  ⟨blockMergeSearch_spec, by decide, by decide⟩

/-- Witness for C7: the token-level fallback on concrete tokens is
flagged low-confidence. -/
theorem token_merge_fallback_w :
    (blockMergeSearch [['T'], "1234567890123".toList]).map Prod.snd =
      some true := by
  have h := token_merge_fallback.1 [['T'], "1234567890123".toList]
    ("T1234567890123".toList, true) (by decide)
  rw [show blockMergeSearch [['T'], "1234567890123".toList] =
    some ("T1234567890123".toList, true) from by decide]
  simp [h.1]

/-- Closed form of the three-attempt tenacity loop. -/
theorem retryCall_cases (b : Nat → BackendResult) :
    retryCall b =
      match b 1 with
      | .ok v => (.ok v, 1, [])
      | .error e1 =>
        if isRetryableError e1 then
          match b 2 with
          | .ok v => (.ok v, 2, [2])
          | .error e2 =>
            if isRetryableError e2 then (b 3, 3, [2, 4])
            else (.error e2, 2, [2])
        else (.error e1, 1, []) := by
  unfold retryCall retryFrom
  match hb1 : b 1 with
  | .ok v => rfl
  | .error e1 =>
    by_cases h1 : isRetryableError e1
    · simp only [h1, if_true]
      match hb2 : b 2 with
      | .ok v => simp [retryFrom, hb2, waitExp]
      | .error e2 =>
        by_cases h2 : isRetryableError e2
        · simp [retryFrom, hb2, h2, waitExp]
        · simp [retryFrom, hb2, h2, waitExp]
    · simp [h1]

/-- C3 (amended): a retryable error on either backend is retried up to 3
attempts with the exponential backoff schedule 2s then 4s (parameters:
base 2, multiplier 2, cap 16); a non-retryable error is not retried;
exhaustion or failure of the primary triggers fallback to the secondary,
and the secondary runs under the same 3-attempt retry policy rather than
a single attempt.  A backend that fails retryably twice and succeeds on
the third call yields success after exactly 3 attempts. -/
theorem ocr_retry_fallback :
    (∀ b : Nat → BackendResult, (retryCall b).2.1 ≤ 3) ∧
    (∀ b : Nat → BackendResult,
      (retryCall b).2.2 = [2, 4].take ((retryCall b).2.1 - 1)) ∧
    (∀ (b : Nat → BackendResult) (e : Str), b 1 = .error e →
      ¬ isRetryableError e → retryCall b = (.error e, 1, [])) ∧
    (∀ (b : Nat → BackendResult) (v e1 e2 : Str),
      b 1 = .error e1 → isRetryableError e1 →
      b 2 = .error e2 → isRetryableError e2 →
      b 3 = .ok v → retryCall b = (.ok v, 3, [2, 4])) ∧
    (∀ (g : Gateway) (e : Str) (k : Nat) (ds : List Nat),
      g.geminiKey = true → retryCall g.gemini = (.error e, k, ds) →
      gatewayCall g = secondaryCall g k) ∧
    (∀ (g : Gateway) (k : Nat) (t : Str), g.openaiKey = true →
      (retryCall g.openai).1 = .ok t →
      secondaryCall g k = ⟨some t, k, (retryCall g.openai).2.1⟩) := by
  refine ⟨?_, ?_, ?_, ?_, ?_, ?_⟩
  · intro b
    rw [retryCall_cases b]
    match b 1 with
    | .ok v => simp
    | .error e1 =>
      by_cases h1 : isRetryableError e1
      · simp only [h1, if_true]
        match b 2 with
        | .ok v => simp
        | .error e2 =>
          by_cases h2 : isRetryableError e2
          · simp [h2]
          · simp [h2]
      · simp [h1]
  · intro b
    rw [retryCall_cases b]
    match b 1 with
    | .ok v => simp
    | .error e1 =>
      by_cases h1 : isRetryableError e1
      · simp only [h1, if_true]
        match b 2 with
        | .ok v => simp
        | .error e2 =>
          by_cases h2 : isRetryableError e2
          · simp [h2]
          · simp [h2]
      · simp [h1]
  · intro b e hb he
    rw [retryCall_cases b, hb]
    simp [he]
  · intro b v e1 e2 hb1 he1 hb2 he2 hb3
    rw [retryCall_cases b, hb1, hb2, hb3]
    simp [he1, he2]
  · intro g e k ds hkey hret
    unfold gatewayCall
    rw [if_pos hkey, hret]
  · intro g k t hkey hok
    unfold secondaryCall
    rw [if_pos hkey]
    match hr : retryCall g.openai with
    | (.ok v, k2, ds) =>
      rw [hr] at hok
      simp only [BackendResult.ok.injEq] at hok
      subst hok
      simp [hr]
    | (.error e, k2, ds) =>
      rw [hr] at hok
      simp at hok

/-- Counterexample for C3 as frozen: the secondary backend is itself
wrapped in the retry decorator, so after primary failure a retryable
error on the secondary is retried — here the secondary consumes 2
attempts and succeeds, where a retry-free secondary would have failed
after its single attempt. -/
def cexGateway : Gateway :=
  { geminiKey := true, openaiKey := true,
    gemini := fun _ => .error "boom".toList,
    openai := fun n => if n = 1 then .error "429".toList else .ok "ok".toList }

/-- The counterexample fact for C3: a retryable first failure of the
secondary backend is retried (2 attempts) and the gateway still
succeeds. -/
theorem ocr_retry_fallback_cex :
    cexGateway.openai 1 = .error "429".toList ∧
    isRetryableError "429".toList = true ∧
    gatewayCall cexGateway =
      { text := some "ok".toList, primaryAttempts := 1,
        secondaryAttempts := 2 } := by
  refine ⟨rfl, by decide, by decide⟩

/-- Witness for C3 at concrete backends: a non-retryable error is not
retried, and two retryable failures then success complete in exactly 3
attempts with delays 2s and 4s. -/
theorem ocr_retry_fallback_w :
    retryCall (fun _ => .error "boom".toList) =
        (.error "boom".toList, 1, []) ∧
      retryCall (fun n => if n < 3 then .error "429".toList
          else .ok "done".toList) = (.ok "done".toList, 3, [2, 4]) := by
  constructor
  · exact ocr_retry_fallback.2.2.1 (fun _ => .error "boom".toList)
      "boom".toList rfl (by decide)
  · exact ocr_retry_fallback.2.2.2.1
      (fun n => if n < 3 then .error "429".toList else .ok "done".toList)
      "done".toList "429".toList "429".toList (by decide) (by decide)
      (by decide) (by decide) (by decide)

/-- C4: every scored date candidate is syntactically valid (year within
2000..2099) and carries exactly the label-proximity bonus plus the
year-plausibility score; when candidates exist the extractor returns the
candidate maximizing the score with ties broken by smallest position,
with `needs_review` iff its year leaves the `CURRENT_YEAR ± 2` window;
the labeled in-range date wins over an out-of-range date, and text
containing only the out-of-range date falls back to the AI value with
`needs_review` set. -/
theorem date_candidate_scoring :
    (∀ (text : Str), ∀ c ∈ dateCandidatesOf text,
      c.score = labelBonus (dateLabelPositions text) c.pos + yearScore c.year ∧
      2000 ≤ c.year ∧ c.year ≤ 2099) ∧
    (∀ (text aiDate : Str), text ≠ [] → dateCandidatesOf text ≠ [] →
      ∃ b ∈ dateCandidatesOf text,
        extractBestDate text aiDate =
          (b.str,
           !(decide (CURRENT_YEAR - 2 ≤ b.year ∧ b.year ≤ CURRENT_YEAR + 2))) ∧
        ∀ c ∈ dateCandidatesOf text,
          b.score > c.score ∨ (b.score = c.score ∧ b.pos ≤ c.pos)) ∧
    extractBestDate "日付 2026/02/08\n1999/01/01".toList "1999/01/01".toList =
      ("2026/02/08".toList, false) ∧
    extractBestDate "1999/01/01".toList "1999/01/01".toList =
      ("1999/01/01".toList, true) := by
  refine ⟨?_, ?_, by decide, by decide⟩
  · intro text c hc
    unfold dateCandidatesOf at hc
    simp only [List.mem_map, List.mem_filter] at hc
    obtain ⟨t, ⟨htmem, hvalid⟩, he⟩ := hc
    subst he
    refine ⟨rfl, ?_, ?_⟩ <;>
      · simp only [validDate, Bool.and_eq_true, decide_eq_true_eq] at hvalid
        dsimp only
        omega
  · intro text aiDate hne hcand
    have h1 : text.isEmpty = false := by
      cases text with
      | nil => exact absurd rfl hne
      | cons a as => rfl
    have h2 : (dateCandidatesOf text).isEmpty = false := by
      cases hd : dateCandidatesOf text with
      | nil => exact absurd hd hcand
      | cons a as => rfl
    obtain ⟨hmem, hall⟩ :=
      sortedHead_min (dateCandidatesOf text) ⟨[], 0, 0, 0⟩ hcand
    refine ⟨_, hmem, ?_, ?_⟩
    · unfold extractBestDate
      rw [if_neg (by simp [h1]), if_neg (by simp [h2])]
    · intro c hc
      exact hall c hc

/-- Witness for C4 at a concrete labeled candidate. -/
theorem date_candidate_scoring_w :
    (⟨"2026/02/08".toList, 15, 2026, 3⟩ : DateCand).score =
        labelBonus (dateLabelPositions "日付 2026/02/08".toList) 3 +
          yearScore 2026 ∧
      2000 ≤ 2026 ∧ (2026 : Nat) ≤ 2099 := by
  have h := date_candidate_scoring.1 "日付 2026/02/08".toList
    ⟨"2026/02/08".toList, 15, 2026, 3⟩ (by decide)
  exact h

/-- C8 (amended): with non-empty OCR text and no regex date candidate the
extractor returns the AI value verbatim and `needs_review` is set iff
the AI value's leading `/`-field parses as an integer year outside the
`CURRENT_YEAR ± 2` window — an absent or unparsable AI value leaves
`needs_review` false; for empty OCR text `needs_review` is set iff the
AI value is absent, with no year check at all. -/
theorem date_no_candidate_fallback :
    (∀ (text aiDate : Str), text ≠ [] → dateCandidatesOf text = [] →
      extractBestDate text aiDate =
        (aiDate,
         match parseYearPy aiDate with
         | some y => !yearInWindowI y
         | none => false)) ∧
    (∀ aiDate : Str, extractBestDate [] aiDate = (aiDate, aiDate.isEmpty)) := by
  constructor
  · intro text aiDate hne hcand
    have h1 : text.isEmpty = false := by
      cases text with
      | nil => exact absurd rfl hne
      | cons a as => rfl
    unfold extractBestDate
    rw [if_neg (by simp [h1]), if_pos (by simp [hcand])]
  · intro aiDate
    unfold extractBestDate
    rw [if_pos (by simp)]

/-- Counterexample for C8 as frozen: for non-empty text with no regex
candidate and no AI-supplied value at all, the extractor returns
`needs_review = false`, where the claim requires `true`. -/
theorem date_no_candidate_fallback_cex :
    dateCandidatesOf "x".toList = [] ∧
    extractBestDate "x".toList [] = ([], false) := by decide

/-- Witness for C8 at a concrete out-of-window AI value. -/
theorem date_no_candidate_fallback_w :
    extractBestDate "no dates".toList "1980/01/01".toList =
      ("1980/01/01".toList, true) := by
  have h := date_no_candidate_fallback.1 "no dates".toList
    "1980/01/01".toList (by decide) (by decide)
  rw [h]
  decide

/-- C5: the multi-pass grouping is an exclusive partition — flattening
the member-index lists of all groups is a permutation of the input
indices (each draft in exactly one group, later passes never revisiting
a grouped draft), and a non-empty input yields between 1 and `n` output
records. -/
theorem grouping_partition :
    (∀ recs : List ReceiptRecord,
      List.Perm
        (((mergeGroups recs).map (fun tg => tg.2.map Prod.fst)).flatten)
        (List.range recs.length)) ∧
    (∀ recs : List ReceiptRecord, recs ≠ [] →
      1 ≤ (mergeRecords recs).length ∧
      (mergeRecords recs).length ≤ recs.length) := by
  have hsplit : ∀ recs : List ReceiptRecord,
      ((mergeGroups recs).map (fun tg => tg.2.map Prod.fst)).flatten =
        (((mergeGroups recs).map (fun tg => tg.2)).flatten).map Prod.fst := by
    intro recs
    rw [List.map_flatten, List.map_map]
    rfl
  have hflatlen : ∀ recs : List ReceiptRecord,
      ((mergeGroups recs).map (fun tg => tg.2)).flatten.length = recs.length := by
    intro recs
    have h := (mergeGroups_perm recs).length_eq
    rwa [List.enum_length] at h
  constructor
  · intro recs
    rw [hsplit recs]
    have h := (mergeGroups_perm recs).map Prod.fst
    rwa [List.enum_map_fst] at h
  · intro recs hne
    have hlenmr : (mergeRecords recs).length = (mergeGroups recs).length := by
      unfold mergeRecords
      rw [List.length_map]
    have hne2 : ∀ g ∈ (mergeGroups recs).map (fun tg => tg.2), g ≠ [] := by
      intro g hg
      obtain ⟨tg, htg, he⟩ := List.mem_map.mp hg
      rw [← he]
      exact mergeGroups_groups_ne recs tg htg
    constructor
    · rw [hlenmr]
      by_contra hzero
      push_neg at hzero
      interval_cases h : (mergeGroups recs).length
      · have hnil : mergeGroups recs = [] := List.length_eq_zero.mp h
        have : recs.length = 0 := by
          rw [← hflatlen recs, hnil]
          rfl
        exact hne (List.length_eq_zero.mp this)
    · rw [hlenmr, ← hflatlen recs]
      have h1 := length_le_flatten_length _ hne2
      rwa [List.length_map] at h1

/-- Witness for C5 at a one-record input. -/
theorem grouping_partition_w :
    1 ≤ (mergeRecords [({} : ReceiptRecord)]).length ∧
      (mergeRecords [({} : ReceiptRecord)]).length ≤
        ([({} : ReceiptRecord)] : List ReceiptRecord).length :=
  grouping_partition.2 [{}] (by simp)

/-- Concrete draft 1 of the reconciliation example (spec section 8):
confirmed invoice, clean record. -/
def specDraft1 : ReceiptRecord :=
  { date := "2026/10/01".toList, vendor := "Seven Eleven".toList,
    subject := "Lunch".toList, total_amount := 1000,
    invoice_no_norm := "T1234567890123".toList,
    qualified_flag := "○".toList,
    tax_rate_detected := .rate10, payment_method := .cash,
    needs_review := false }

/-- Concrete draft 2: same date/amount, fuzzy-matching vendor, no
invoice, flagged for review. -/
def specDraft2 : ReceiptRecord :=
  { date := "2026/10/01".toList, vendor := "Seven Eleven Japan".toList,
    subject := [], total_amount := 1000,
    tax_rate_detected := .rate10, payment_method := .cash,
    needs_review := true, missing_fields := ["vendor".toList] }

/-- Concrete draft 3: different amount, stays separate. -/
def specDraft3 : ReceiptRecord :=
  { date := "2026/10/01".toList, vendor := "Seven Eleven".toList,
    subject := "Dinner".toList, total_amount := 2000,
    tax_rate_detected := .rate10, payment_method := .cash,
    needs_review := false }

/-- C6: the representative of a group is the first member attaining the
maximal `_calculate_score` value (everything before it scores strictly
lower, everything after no higher); a confirmed invoice held by any
member survives into the merged output; and the three-draft example
merges into exactly two records, the merged one keeping the confirmed
invoice and the amount-2000 draft staying separate. -/
theorem representative_merge :
    (∀ (b : ReceiptRecord) (rs : List ReceiptRecord),
      ∃ pre post, b :: rs = pre ++ pickBest b rs :: post ∧
        (∀ x ∈ pre, calculateScore x < calculateScore (pickBest b rs)) ∧
        (∀ x ∈ post, calculateScore x ≤ calculateScore (pickBest b rs))) ∧
    (∀ (t : GroupTag) (g : List ReceiptRecord),
      (∃ x ∈ g, x.invoice_no_norm ≠ []) →
      (mergeGroup t g).invoice_no_norm ≠ []) ∧
    (mergeRecords [specDraft1, specDraft2, specDraft3]).map
        (fun r => (r.total_amount, r.invoice_no_norm, r.vendor)) =
      [(1000, "T1234567890123".toList, "Seven Eleven".toList),
       (2000, [], "Seven Eleven".toList)] := by
  refine ⟨pickBest_spec |> fun h rs b => h b rs, ?_, by decide⟩
  intro t g hex
  match g with
  | [] =>
    obtain ⟨x, hx, -⟩ := hex
    simp at hx
  | [r] =>
    obtain ⟨x, hx, hxi⟩ := hex
    simp only [List.mem_singleton] at hx
    subst hx
    simpa [mergeGroup] using hxi
  | r :: r2 :: rs =>
    simp only [mergeGroup]
    by_cases hbi : (pickBest r (r2 :: rs)).invoice_no_norm.isEmpty
    · obtain ⟨x, hx, hxi⟩ := hex
      match hfind : List.find? (fun x => !x.invoice_no_norm.isEmpty)
          (r :: r2 :: rs) with
      | none =>
        rw [List.find?_eq_none] at hfind
        have hni := hfind x hx
        have hempty : x.invoice_no_norm = [] := by
          by_contra hne2
          exact hni (by simp [hne2])
        exact absurd hempty hxi
      | some y =>
        have hy : y.invoice_no_norm ≠ [] := by
          have := List.find?_some hfind
          simpa [List.isEmpty_iff] using this
        rw [if_pos hbi, hfind]
        rw [if_pos ⟨by simpa [List.isEmpty_iff] using hy, hbi⟩]
        simpa [List.isEmpty_iff] using hy
    · rw [if_neg hbi]
      rw [if_neg (by simp [hbi])]
      simpa [List.isEmpty_iff] using hbi

/-- Witness for C6: the invoice-retention conjunct at a concrete
two-record group. -/
theorem representative_merge_w :
    (mergeGroup (GroupTag.fuzzy 0) [specDraft2, specDraft1]).invoice_no_norm ≠
      [] := by
  refine representative_merge.2.1 (GroupTag.fuzzy 0) [specDraft2, specDraft1]
    ⟨specDraft1, by simp, by decide⟩

/-- Merging preserves the flag/invoice equivalence of group members. -/
theorem mergeGroup_flag_inv (t : GroupTag) (g : List ReceiptRecord)
    (h : ∀ r ∈ g, (r.qualified_flag = "○".toList ↔ r.invoice_no_norm ≠ [])) :
    ((mergeGroup t g).qualified_flag = "○".toList ↔
      (mergeGroup t g).invoice_no_norm ≠ []) := by
  match g with
  | [] =>
    simp only [mergeGroup]
    constructor
    · intro hf; exact absurd hf (by decide)
    · intro hi; exact absurd rfl hi
  | [r] =>
    simpa [mergeGroup] using h r (by simp)
  | r :: r2 :: rs =>
    have hbest := pickBest_mem (r2 :: rs) r
    have hbinv := h _ hbest
    simp only [mergeGroup]
    by_cases hbi : (pickBest r (r2 :: rs)).invoice_no_norm.isEmpty
    · match hfind : List.find? (fun x => !x.invoice_no_norm.isEmpty)
          (r :: r2 :: rs) with
      | none =>
        rw [if_pos hbi, hfind]
        rw [if_neg (by simp)]
        have hbe : (pickBest r (r2 :: rs)).invoice_no_norm = [] :=
          List.isEmpty_iff.mp hbi
        constructor
        · intro hf
          exact absurd (hbinv.mp hf) (by simp [hbe])
        · intro hi
          exact absurd hbe hi
      | some y =>
        have hy := List.find?_some hfind
        rw [if_pos hbi, hfind]
        rw [if_pos ⟨by simpa using hy, hbi⟩]
        constructor
        · intro _
          simpa [List.isEmpty_iff] using hy
        · intro _
          rfl
    · rw [if_neg hbi]
      rw [if_neg (by simp [hbi])]
      exact hbinv

/-- C10: `qualified_flag` equals `○` exactly when a confirmed invoice is
present — established at draft creation and preserved by the merge step
(including invoice adoption, which sets both together). -/
theorem qualified_flag_invariant :
    (∀ (item : Item) (i : Nat) (backend : Str),
      ((createRecord item i backend).qualified_flag = "○".toList ↔
        (createRecord item i backend).invoice_no_norm ≠ [])) ∧
    (∀ recs : List ReceiptRecord,
      (∀ r ∈ recs, (r.qualified_flag = "○".toList ↔ r.invoice_no_norm ≠ [])) →
      ∀ out ∈ mergeRecords recs,
        (out.qualified_flag = "○".toList ↔ out.invoice_no_norm ≠ [])) := by
  constructor
  · intro item i backend
    simp only [createRecord]
    by_cases hconf : (if (extractInvoiceNoFromText item.ocr_full_text
        item.invoice_no_raw).2 = true then ([] : Str)
      else (extractInvoiceNoFromText item.ocr_full_text
        item.invoice_no_raw).1).isEmpty
    · rw [if_pos hconf]
      constructor
      · intro hf; exact absurd hf (by decide)
      · intro hi; exact absurd (List.isEmpty_iff.mp hconf) hi
    · rw [if_neg hconf]
      constructor
      · intro _
        simpa [List.isEmpty_iff] using hconf
      · intro _
        rfl
  · intro recs hinv out hout
    unfold mergeRecords at hout
    obtain ⟨tg, htg, he⟩ := List.mem_map.mp hout
    rw [← he]
    refine mergeGroup_flag_inv tg.1 _ ?_
    intro r hr
    obtain ⟨p, hp, hpe⟩ := List.mem_map.mp hr
    rw [← hpe]
    exact hinv _ (mergeGroups_member recs tg htg p hp)

/-- Witness for C10: a concrete record with a confirmed invoice carries
the `○` flag. -/
theorem qualified_flag_invariant_w :
    (createRecord { invoice_no_raw := "T9876543210987".toList } 0
        "Gemini".toList).qualified_flag = "○".toList := by
  refine (qualified_flag_invariant.1
    { invoice_no_raw := "T9876543210987".toList } 0 "Gemini".toList).mpr ?_
  decide

/-- Engine-creatable draft for the C1 counterexample: a 12-digit AI hint
yields a low-confidence candidate invoice on an otherwise strong
record. -/
def cexItemA : Item :=
  { date := "2026/10/01".toList, vendor := "storex".toList,
    subject := "taxi".toList, total_amount := 1000,
    invoice_no_raw := "T123456789012".toList,
    tax_rate := "10".toList, payment_clues := "cash".toList }

/-- Engine-creatable draft for the C1 counterexample: a 13-digit AI hint
yields a confirmed invoice, but the missing date keeps this record's
score below the other draft's. -/
def cexItemB : Item :=
  { date := [], vendor := "storex".toList,
    subject := "taxi".toList, total_amount := 1000,
    invoice_no_raw := "T9876543210987".toList,
    tax_rate := "10".toList, payment_clues := "cash".toList }

/-- C1 (amended): at draft creation the confirmed and candidate invoice
fields are mutually exclusive; but the merge adoption step copies a
member's confirmed invoice into a representative without clearing the
representative's candidate field, so a merged record can carry both
values at once. -/
theorem invoice_fields_exclusive :
    (∀ (item : Item) (i : Nat) (backend : Str),
      (createRecord item i backend).invoice_no_norm = [] ∨
      (createRecord item i backend).invoice_candidate = []) ∧
    (mergeRecords [createRecord cexItemA 0 "Gemini".toList,
        createRecord cexItemB 1 "Gemini".toList]).map
        (fun r => (r.invoice_no_norm, r.invoice_candidate)) =
      [("T9876543210987".toList, "T0123456789012".toList)] := by
  constructor
  · intro item i backend
    simp only [createRecord]
    by_cases h : (extractInvoiceNoFromText item.ocr_full_text
        item.invoice_no_raw).2 = true
    · left; rw [if_pos h]
    · right; rw [if_neg h]
  · decide

/-- Counterexample for C1 as frozen: two drafts the engine itself
creates (low-confidence candidate on one, confirmed invoice on the
other) merge into a single record whose confirmed and candidate invoice
fields are both non-empty — the adoption step never cleared the
candidate. -/
theorem invoice_fields_exclusive_cex :
    (createRecord cexItemA 0 "Gemini".toList).invoice_no_norm = [] ∧
    (createRecord cexItemA 0 "Gemini".toList).invoice_candidate =
      "T0123456789012".toList ∧
    (createRecord cexItemB 1 "Gemini".toList).invoice_no_norm =
      "T9876543210987".toList ∧
    (createRecord cexItemB 1 "Gemini".toList).invoice_candidate = [] ∧
    (mergeRecords [createRecord cexItemA 0 "Gemini".toList,
        createRecord cexItemB 1 "Gemini".toList]).map
        (fun r => (r.invoice_no_norm.isEmpty, r.invoice_candidate.isEmpty)) =
      [(false, false)] := by decide

/-- Witness for C1 at a concrete item. -/
theorem invoice_fields_exclusive_w :
    (createRecord cexItemB 1 "Gemini".toList).invoice_no_norm = [] ∨
      (createRecord cexItemB 1 "Gemini".toList).invoice_candidate = [] :=
  invoice_fields_exclusive.1 cexItemB 1 "Gemini".toList

/-- The example tile geometry: a 200×200 tile at pixel offset (50,50)
inside a 400×400 source. -/
def exOffset : OffsetInfo :=
  { offY := 50, offX := 50, cropH := 200, cropW := 200,
    origH := 400, origW := 400 }

/-- C9: converting a tile-local box (scale to tile pixels, add the tile
offset, re-normalize by the full image) yields exactly the global
normalized box that a direct whole-image detection of the same physical
pixel rectangle would report, and the concrete 200×200 tile at offset
(50,50) of a 400×400 source maps [100,100,200,200] to [175,175,225,225],
the direct detection of the pixel rectangle (70,70)+(20,20). -/
theorem tile_coordinate_conversion :
    (∀ (ymin xmin ymax xmax : Int) (o : OffsetInfo),
      o.origH > 0 → o.origW > 0 →
      convertBox [ymin, xmin, ymax, xmax] o =
        some (directGlobalBox (tilePixelTop ymin o) (tilePixelLeft xmin o)
          (tilePixelHeight ymin ymax o) (tilePixelWidth xmin xmax o)
          (o.origH : ℚ) (o.origW : ℚ))) ∧
    convertBox [100, 100, 200, 200] exOffset = some [175, 175, 225, 225] ∧
    directGlobalBox 70 70 20 20 400 400 = [175, 175, 225, 225] ∧
    tilePixelTop 100 exOffset = 70 ∧
    tilePixelLeft 100 exOffset = 70 ∧
    tilePixelHeight 100 200 exOffset = 20 ∧
    tilePixelWidth 100 200 exOffset = 20 := by
  refine ⟨?_, ?_, ?_, ?_, ?_, ?_, ?_⟩
  · intro ymin xmin ymax xmax o h1 h2
    simp only [convertBox, directGlobalBox, tilePixelTop, tilePixelLeft,
      tilePixelHeight, tilePixelWidth]
    rw [if_pos ⟨h1, h2⟩]
  · norm_num [convertBox, exOffset, pyInt, ratFloor_eq_floor]
  · norm_num [directGlobalBox, pyInt, ratFloor_eq_floor]
  · norm_num [tilePixelTop, exOffset]
  · norm_num [tilePixelLeft, exOffset]
  · norm_num [tilePixelHeight, exOffset]
  · norm_num [tilePixelWidth, exOffset]

/-- Witness for C9 at the concrete tile geometry. -/
theorem tile_coordinate_conversion_w :
    convertBox [100, 100, 200, 200] exOffset =
      some (directGlobalBox (tilePixelTop 100 exOffset)
        (tilePixelLeft 100 exOffset) (tilePixelHeight 100 200 exOffset)
        (tilePixelWidth 100 200 exOffset) 400 400) := by
  have h := tile_coordinate_conversion.1 100 100 200 200 exOffset
    (by norm_num [exOffset]) (by norm_num [exOffset])
  simpa [exOffset] using h

end ReceiptReader
